import Mathlib

/-!
# QPACK encoder: table-size negotiation, vulnerability gate, flow-control gate

Shallow embedding of `proxygen/lib/http/codec/compress/QPACKEncoder.h`.

* `uint32_t` values are natural numbers; the embedded members only copy and
  compare them, so no wrap-around can occur and no reduction modulo `2^32` is
  needed.  Concrete inputs used below are all below `2^32`.
* `int64_t maxEncoderStreamBytes_` is an integer.
* The dynamic table `table_` belongs to the base classes, which are not part of
  this header.  Its type is a parameter `T`, and the base-class setter
  `HPACKEncoderBase::setHeaderTableSize(table_, size)` is a parameter
  `baseSet : T → Nat → T`.  Statements quantified over every `baseSet` therefore
  describe exactly which calls reach the table store.
-/

namespace proxygen

/-! ## Data model (QPACKEncoder.h, lines 152-166) -/

/-- Record `QPACKEncoder::OutstandingBlock`: the set of table indices a header
block refers to and its `vulnerable` flag. -/
structure OutstandingBlock where
  references : List Nat
  vulnerable : Bool
deriving DecidableEq

/-- Mutable members of `QPACKEncoder`.  The byte buffers (`controlBuffer_`,
`decoderIngress_`) and the cursor `curOutstanding_` carry no information used by
the embedded members and are left out. -/
structure QPACKEncoder (T : Type) where
  table_ : T
  outstanding_ : List (Nat × List OutstandingBlock)
  maxDepends_ : Nat
  maxVulnerable_ : Nat
  numVulnerable_ : Nat
  maxTableSize_ : Nat
  maxEncoderStreamBytes_ : Int

/-- Constant `QPACKEncoder::kMaxHeaderTableSize = (1u << 16)`. -/
def kMaxHeaderTableSize : Nat := 1 <<< 16

namespace QPACKEncoder

variable {T : Type}

/-- Encoder right after construction, from the default member initialisers
(lines 159-165).  The table handed over by the base classes and the constant
`HPACK::kDefaultBlocking` (declared in `HPACKConstants.h`) are parameters. -/
def fresh (table : T) (kDefaultBlocking : Nat) : QPACKEncoder T :=
  { table_ := table
    outstanding_ := []
    maxDepends_ := 0
    maxVulnerable_ := kDefaultBlocking
    numVulnerable_ := 0
    maxTableSize_ := 0
    maxEncoderStreamBytes_ := 0 }

/-- Lines 70-76 of `setHeaderTableSize`: clamp the requested size to
`kMaxHeaderTableSize` and hand it to the base-class setter. -/
def clampAndStore (baseSet : T → Nat → T) (enc : QPACKEncoder T) (tableSize : Nat) :
    QPACKEncoder T :=
  let tableSize1 := if tableSize > kMaxHeaderTableSize then kMaxHeaderTableSize else tableSize
  { enc with table_ := baseSet enc.table_ tableSize1 }

/-- Member `QPACKEncoder::setHeaderTableSize(tableSize, updateMax)` (lines 60-77).
Returns the boolean result together with the encoder after the call. -/
def setHeaderTableSize (baseSet : T → Nat → T) (enc : QPACKEncoder T) (tableSize : Nat)
    (updateMax : Bool) : Bool × QPACKEncoder T :=
  if updateMax then
    if enc.maxTableSize_ ≠ 0 ∧ enc.maxTableSize_ ≠ tableSize then
      (false, enc)
    else
      (true, clampAndStore baseSet { enc with maxTableSize_ := tableSize } tableSize)
  else
    (true, clampAndStore baseSet enc tableSize)

/-- Member `QPACKEncoder::getMaxHeaderTableSize()` (lines 79-81). -/
def getMaxHeaderTableSize (enc : QPACKEncoder T) : Nat :=
  enc.maxTableSize_

/-- Member `QPACKEncoder::setMaxVulnerable(maxVulnerable)` (lines 83-85). -/
def setMaxVulnerable (enc : QPACKEncoder T) (maxVulnerable : Nat) : QPACKEncoder T :=
  { enc with maxVulnerable_ := maxVulnerable }

/-- Member `QPACKEncoder::allowVulnerable()` (lines 94-96). -/
def allowVulnerable (enc : QPACKEncoder T) : Bool :=
  decide (enc.numVulnerable_ < enc.maxVulnerable_)

/-- Member `QPACKEncoder::lastEntryAvailable()` (lines 148-150). -/
def lastEntryAvailable (enc : QPACKEncoder T) : Bool :=
  decide (enc.maxEncoderStreamBytes_ ≥ 0)

/-- A sequence of `setHeaderTableSize` calls, each given as
`(tableSize, updateMax)`, applied in order; results are discarded, as a caller
ignoring the returned flag would do. -/
def runCalls (baseSet : T → Nat → T) : List (Nat × Bool) → QPACKEncoder T → QPACKEncoder T
  | [], enc => enc
  | (tableSize, updateMax) :: rest, enc =>
      runCalls baseSet rest (setHeaderTableSize baseSet enc tableSize updateMax).2

end QPACKEncoder

/-- A table store that only records, in call order, the sizes it is given by
`HPACKEncoderBase::setHeaderTableSize`. -/
def recordSize (log : List Nat) (size : Nat) : List Nat :=
  log ++ [size]

/-- Encoder used in the examples: a fresh encoder over the recording table
store, with `HPACK::kDefaultBlocking` taken to be 100. -/
def freshRec : QPACKEncoder (List Nat) :=
  QPACKEncoder.fresh [] 100

/-- The encoder `freshRec` after `setHeaderTableSize(4096, true)`. -/
def rec4096 : QPACKEncoder (List Nat) :=
  (QPACKEncoder.setHeaderTableSize recordSize freshRec 4096 true).2

/-! ## Reference Tracker and decoder feedback

`encode`, `trackReference`, `onInsertCountIncrement` and `onHeaderAck` are only
declared in the header (lines 47-58 and 136); their bodies are in
`QPACKEncoder.cpp`, which is not available.  The definitions of this section
follow sections 3, 4.1 (step 5), 4.2 and 4.3 of the specification and cover the
effect of these operations on the per-stream block queues and on the
vulnerability counter.  They reuse the embedded members `allowVulnerable` and
`setMaxVulnerable`.

The counter is incremented only under `allowVulnerable()`, that is strictly
below a `uint32_t` maximum, so the increment cannot wrap.  Decrements are
written with natural-number subtraction; the counter is proved to equal the
number of vulnerable outstanding blocks in every reachable state, so no
decrement is ever cut off at zero. -/

/-- Modelled from the spec: the insert bookkeeping of the Table Store, which is
an external collaborator.  `insertCount` is the number of inserts issued so far
(the next absolute index), `ackedInsertCount` the acknowledged-insert count of
section 4.3.  An absolute index `i` is acknowledged when `i < ackedInsertCount`
(Required Insert Count is `index + 1`). -/
structure InsertCounts where
  insertCount : Nat
  ackedInsertCount : Nat
deriving DecidableEq

/-- Modelled from the spec: the path the Encoding Decision Engine selects for one
header after consulting the Table Store (section 4.1, steps 1-4; the lookup
itself is the Table Store's concern).  `literal` references no table entry,
`reference i` refers to the existing absolute index `i`, and `newEntry` mints a
new absolute index by an insert or duplicate instruction and refers to it. -/
inductive HeaderPath where
  | literal
  | reference (index : Nat)
  | newEntry
deriving DecidableEq

/-- Queue of outstanding blocks of stream `streamId` in the map `outstanding_`
(empty when the stream has no entry). -/
def getQueue : List (Nat × List OutstandingBlock) → Nat → List OutstandingBlock
  | [], _ => []
  | (k, q) :: rest, streamId => if k = streamId then q else getQueue rest streamId

/-- Replace the queue of stream `streamId` in the map `outstanding_`. -/
def setQueue : List (Nat × List OutstandingBlock) → Nat → List OutstandingBlock →
    List (Nat × List OutstandingBlock)
  | [], streamId, q => [(streamId, q)]
  | (k, q0) :: rest, streamId, q =>
      if k = streamId then (k, q) :: rest else (k, q0) :: setQueue rest streamId q

/-- Number of vulnerable blocks in one queue. -/
def countVulnerableBlocks (q : List OutstandingBlock) : Nat :=
  q.countP (fun b => b.vulnerable)

/-- Number of vulnerable blocks over all streams. -/
def countVulnerable (m : List (Nat × List OutstandingBlock)) : Nat :=
  (m.map (fun e => countVulnerableBlocks e.2)).sum

namespace QPACKEncoder

/-- Modelled from the spec: `trackReference`, declared at line 136 without a
body.  Section 4.1 step 5: the reference is recorded against the current
Outstanding Block; the block is marked vulnerable if the referenced index has
not yet been acknowledged, subject to the global vulnerability cap; if the cap
is already reached the path is not used (result `none`, the header falls back to
a literal).  Section 4.2: callers check `allowVulnerable()` before marking a new
vulnerable reference.  Section 3: the counter is incremented when a vulnerable
block is created. -/
def trackReference (enc : QPACKEncoder InsertCounts) (cur : OutstandingBlock) (index : Nat) :
    Option (QPACKEncoder InsertCounts × OutstandingBlock) :=
  if index < enc.table_.ackedInsertCount then
    some (enc, { cur with references := cur.references.insert index })
  else if enc.allowVulnerable then
    if cur.vulnerable then
      some (enc, { cur with references := cur.references.insert index })
    else
      some ({ enc with numVulnerable_ := enc.numVulnerable_ + 1 },
            { references := cur.references.insert index, vulnerable := true })
  else
    none

/-- Modelled from the spec: the effect of encoding one header on the Reference
Tracker (section 4.1, steps 2-5).  A path that cannot be used because of the
vulnerability cap leaves encoder and block unchanged (literal fallback). -/
def encodeHeader (st : QPACKEncoder InsertCounts × OutstandingBlock) (p : HeaderPath) :
    QPACKEncoder InsertCounts × OutstandingBlock :=
  match p with
  | HeaderPath.literal => st
  | HeaderPath.reference index =>
      match trackReference st.1 st.2 index with
      | some st1 => st1
      | none => st
  | HeaderPath.newEntry =>
      let minted : QPACKEncoder InsertCounts :=
        { st.1 with table_ := { st.1.table_ with insertCount := st.1.table_.insertCount + 1 } }
      match trackReference minted st.2 st.1.table_.insertCount with
      | some st1 => st1
      | none => st

/-- Modelled from the spec: the effect of `encode(headers, headroom, streamId,
maxEncoderStreamBytes)` (declared at lines 47-51 without a body) on the Reference
Tracker.  One Outstanding Block is created per header block and appended to the
queue of its stream (section 3); the headers are processed in order. -/
def encode (enc : QPACKEncoder InsertCounts) (paths : List HeaderPath) (streamId : Nat) :
    QPACKEncoder InsertCounts :=
  let st := paths.foldl encodeHeader (enc, { references := [], vulnerable := false })
  { st.1 with
    outstanding_ := setQueue st.1.outstanding_ streamId
      (getQueue st.1.outstanding_ streamId ++ [st.2]) }

end QPACKEncoder

/-- Modelled from the spec: section 4.3, Insert Count Increment.  A vulnerable
block whose referenced indices are all below the acknowledged count becomes
non-vulnerable. -/
def settleBlock (acked : Nat) (b : OutstandingBlock) : OutstandingBlock :=
  if b.vulnerable && b.references.all (fun i => decide (i < acked)) then
    { b with vulnerable := false }
  else b

/-- Apply `settleBlock` to every block of every stream. -/
def settleAll (acked : Nat) (m : List (Nat × List OutstandingBlock)) :
    List (Nat × List OutstandingBlock) :=
  m.map (fun e => (e.1, e.2.map (settleBlock acked)))

/-- Number of blocks that `settleAll` turns from vulnerable to non-vulnerable. -/
def countSettled (acked : Nat) (m : List (Nat × List OutstandingBlock)) : Nat :=
  (m.map (fun e => e.2.countP
    (fun b => b.vulnerable && b.references.all (fun i => decide (i < acked))))).sum

namespace QPACKEncoder

/-- Modelled from the spec: `onInsertCountIncrement(inserts)` (declared at line
56 without a body), section 4.3.  Fails (`none`) if `inserts` is zero or if it
would advance acknowledgment past the number of inserts issued; otherwise
advances the acknowledged count, makes the blocks non-vulnerable whose
references are all acknowledged, and decrements the counter accordingly. -/
def onInsertCountIncrement (enc : QPACKEncoder InsertCounts) (inserts : Nat) :
    Option (QPACKEncoder InsertCounts) :=
  if inserts = 0 ∨ enc.table_.ackedInsertCount + inserts > enc.table_.insertCount then
    none
  else
    let acked := enc.table_.ackedInsertCount + inserts
    some { enc with
      table_ := { enc.table_ with ackedInsertCount := acked }
      numVulnerable_ := enc.numVulnerable_ - countSettled acked enc.outstanding_
      outstanding_ := settleAll acked enc.outstanding_ }

/-- Modelled from the spec: `onHeaderAck(streamId, all)` (declared at line 58
without a body), section 4.3.  Fails (`none`) if the stream has no outstanding
block.  With `all = false` the oldest block of the stream is retired, with
`all = true` every block of the stream; the counter is decremented for each
retired block that was vulnerable. -/
def onHeaderAck (enc : QPACKEncoder InsertCounts) (streamId : Nat) (all : Bool) :
    Option (QPACKEncoder InsertCounts) :=
  match getQueue enc.outstanding_ streamId with
  | [] => none
  | b :: rest =>
      if all then
        some { enc with
          numVulnerable_ := enc.numVulnerable_ - countVulnerableBlocks (b :: rest)
          outstanding_ := setQueue enc.outstanding_ streamId [] }
      else
        some { enc with
          numVulnerable_ := enc.numVulnerable_ - countVulnerableBlocks [b]
          outstanding_ := setQueue enc.outstanding_ streamId rest }

end QPACKEncoder

/-- Public operations of the encoder that touch the vulnerability counter or
its maximum. -/
inductive Op where
  | encode (paths : List HeaderPath) (streamId : Nat)
  | onInsertCountIncrement (inserts : Nat)
  | onHeaderAck (streamId : Nat) (all : Bool)
  | setMaxVulnerable (maxVulnerable : Nat)
deriving DecidableEq

/-- One public operation.  A decoder-stream operation that fails with a decode
error leaves the encoder as it was. -/
def applyOp (enc : QPACKEncoder InsertCounts) : Op → QPACKEncoder InsertCounts
  | Op.encode paths streamId => enc.encode paths streamId
  | Op.onInsertCountIncrement inserts => (enc.onInsertCountIncrement inserts).getD enc
  | Op.onHeaderAck streamId all => (enc.onHeaderAck streamId all).getD enc
  | Op.setMaxVulnerable v => enc.setMaxVulnerable v

/-- A sequence of public operations applied in order. -/
def runOps : List Op → QPACKEncoder InsertCounts → QPACKEncoder InsertCounts
  | [], enc => enc
  | op :: rest, enc => runOps rest (applyOp enc op)

/-- Checks that every `setMaxVulnerable(v)` of the sequence is issued in a state
whose vulnerability counter is at most `v`. -/
def maxNotBelowCounter : List Op → QPACKEncoder InsertCounts → Bool
  | [], _ => true
  | Op.setMaxVulnerable v :: rest, enc =>
      decide (enc.numVulnerable_ ≤ v) && maxNotBelowCounter rest (applyOp enc (Op.setMaxVulnerable v))
  | op :: rest, enc => maxNotBelowCounter rest (applyOp enc op)

/-- Fresh encoder of the Reference Tracker model: no insert issued, none
acknowledged. -/
def freshTracker (kDefaultBlocking : Nat) : QPACKEncoder InsertCounts :=
  QPACKEncoder.fresh { insertCount := 0, ackedInsertCount := 0 } kDefaultBlocking

/-- Invariant of the Reference Tracker between two public operations: the
counter is the number of vulnerable outstanding blocks and does not exceed the
maximum. -/
def TrackerInv (enc : QPACKEncoder InsertCounts) : Prop :=
  enc.numVulnerable_ = countVulnerable enc.outstanding_
  ∧ enc.numVulnerable_ ≤ enc.maxVulnerable_

/-- Invariant while a header block is being encoded: the block under
construction is counted as soon as it is marked vulnerable. -/
def EncodingInv (st : QPACKEncoder InsertCounts × OutstandingBlock) : Prop :=
  st.1.numVulnerable_ = countVulnerable st.1.outstanding_ + (if st.2.vulnerable then 1 else 0)
  ∧ st.1.numVulnerable_ ≤ st.1.maxVulnerable_

/-! ## Basic facts about `setHeaderTableSize` -/

section Lemmas

open QPACKEncoder

variable {T : Type}

lemma kMaxHeaderTableSize_eq : kMaxHeaderTableSize = 65536 := by decide

lemma clampAndStore_maxTableSize (baseSet : T → Nat → T) (enc : QPACKEncoder T) (n : Nat) :
    (clampAndStore baseSet enc n).maxTableSize_ = enc.maxTableSize_ := rfl

lemma clampAndStore_table (baseSet : T → Nat → T) (enc : QPACKEncoder T) (n : Nat) :
    (clampAndStore baseSet enc n).table_ = baseSet enc.table_ (min n kMaxHeaderTableSize) := by
  unfold clampAndStore
  by_cases h : n > kMaxHeaderTableSize
  · simp [h, Nat.min_eq_right (Nat.le_of_lt h)]
  · simp [h, Nat.min_eq_left (Nat.le_of_not_gt h)]

/-- One call never changes a non-zero recorded maximum. -/
lemma setHeaderTableSize_keeps_nonzero (baseSet : T → Nat → T) (enc : QPACKEncoder T)
    (n : Nat) (u : Bool) (h : enc.maxTableSize_ ≠ 0) :
    (setHeaderTableSize baseSet enc n u).2.maxTableSize_ = enc.maxTableSize_ := by
  unfold setHeaderTableSize
  cases u
  · simp [clampAndStore_maxTableSize]
  · by_cases hne : enc.maxTableSize_ = n
    · simp [h, hne, clampAndStore_maxTableSize]
    · simp [h, hne]

lemma runCalls_append (baseSet : T → Nat → T) (pre post : List (Nat × Bool))
    (enc : QPACKEncoder T) :
    runCalls baseSet (pre ++ post) enc = runCalls baseSet post (runCalls baseSet pre enc) := by
  induction pre generalizing enc with
  | nil => rfl
  | cons c rest ih =>
    obtain ⟨n, u⟩ := c
    simp only [List.cons_append, runCalls]
    exact ih _

lemma runCalls_keeps_nonzero (baseSet : T → Nat → T) (calls : List (Nat × Bool))
    (enc : QPACKEncoder T) (h : enc.maxTableSize_ ≠ 0) :
    (runCalls baseSet calls enc).maxTableSize_ = enc.maxTableSize_ := by
  induction calls generalizing enc with
  | nil => rfl
  | cons c rest ih =>
    obtain ⟨n, u⟩ := c
    have h1 := setHeaderTableSize_keeps_nonzero baseSet enc n u h
    simp only [runCalls]
    rw [ih _ (by rw [h1]; exact h), h1]

/-- Every call hands the recording table store at most the ceiling. -/
lemma setHeaderTableSize_log_capped (enc : QPACKEncoder (List Nat)) (n : Nat) (u : Bool)
    (h : ∀ x ∈ enc.table_, x ≤ kMaxHeaderTableSize) :
    ∀ x ∈ (setHeaderTableSize recordSize enc n u).2.table_, x ≤ kMaxHeaderTableSize := by
  have hstore : ∀ e : QPACKEncoder (List Nat), (∀ x ∈ e.table_, x ≤ kMaxHeaderTableSize) →
      ∀ x ∈ (clampAndStore recordSize e n).table_, x ≤ kMaxHeaderTableSize := by
    intro e he x hx
    rw [clampAndStore_table] at hx
    simp only [recordSize, List.mem_append, List.mem_singleton] at hx
    rcases hx with hx | hx
    · exact he x hx
    · rw [hx]; exact Nat.min_le_right _ _
  unfold setHeaderTableSize
  cases u
  · simpa using hstore enc h
  · by_cases hc : enc.maxTableSize_ ≠ 0 ∧ enc.maxTableSize_ ≠ n
    · simpa [hc] using h
    · simp only [if_true, if_neg hc]
      exact hstore _ h

lemma runCalls_log_capped (calls : List (Nat × Bool)) (enc : QPACKEncoder (List Nat))
    (h : ∀ x ∈ enc.table_, x ≤ kMaxHeaderTableSize) :
    ∀ x ∈ (runCalls recordSize calls enc).table_, x ≤ kMaxHeaderTableSize := by
  induction calls generalizing enc with
  | nil => exact h
  | cons c rest ih =>
    obtain ⟨n, u⟩ := c
    simp only [runCalls]
    exact ih _ (setHeaderTableSize_log_capped enc n u h)

/-- After one call the recorded maximum is the old one or the requested size of
a call made with `updateMax = true`. -/
lemma setHeaderTableSize_max_cases (baseSet : T → Nat → T) (enc : QPACKEncoder T)
    (n : Nat) (u : Bool) :
    (setHeaderTableSize baseSet enc n u).2.maxTableSize_ = enc.maxTableSize_
    ∨ (u = true ∧ (setHeaderTableSize baseSet enc n u).2.maxTableSize_ = n) := by
  unfold setHeaderTableSize
  cases u
  · simp [clampAndStore_maxTableSize]
  · by_cases hc : enc.maxTableSize_ ≠ 0 ∧ enc.maxTableSize_ ≠ n
    · simp [hc]
    · right
      simp only [if_true, if_neg hc, clampAndStore_maxTableSize, and_self]

lemma runCalls_max_cases (baseSet : T → Nat → T) (calls : List (Nat × Bool))
    (enc : QPACKEncoder T) :
    (runCalls baseSet calls enc).maxTableSize_ = enc.maxTableSize_
    ∨ ∃ c ∈ calls, c.2 = true ∧ c.1 = (runCalls baseSet calls enc).maxTableSize_ := by
  induction calls generalizing enc with
  | nil => left; rfl
  | cons c rest ih =>
    obtain ⟨n, u⟩ := c
    simp only [runCalls]
    rcases ih (setHeaderTableSize baseSet enc n u).2 with h | ⟨c, hc, hu, hv⟩
    · rcases setHeaderTableSize_max_cases baseSet enc n u with h1 | ⟨hu, h1⟩
      · left; rw [h, h1]
      · right
        exact ⟨(n, u), List.mem_cons_self _ _, hu, by rw [h, h1]⟩
    · right
      exact ⟨c, List.mem_cons_of_mem _ hc, hu, hv⟩

/-! ## Facts about the Reference Tracker -/

lemma countVulnerableBlocks_append (q1 q2 : List OutstandingBlock) :
    countVulnerableBlocks (q1 ++ q2) = countVulnerableBlocks q1 + countVulnerableBlocks q2 := by
  simp [countVulnerableBlocks, List.countP_append]

lemma countVulnerableBlocks_single (b : OutstandingBlock) :
    countVulnerableBlocks [b] = if b.vulnerable then 1 else 0 := by
  cases hb : b.vulnerable <;> simp [countVulnerableBlocks, List.countP_cons, hb]

/-- Replacing one queue changes the global count by the difference of the two
queues. -/
lemma countVulnerable_setQueue (m : List (Nat × List OutstandingBlock)) (k : Nat)
    (q : List OutstandingBlock) :
    countVulnerable (setQueue m k q) + countVulnerableBlocks (getQueue m k)
      = countVulnerable m + countVulnerableBlocks q := by
  induction m with
  | nil => simp [setQueue, getQueue, countVulnerable, countVulnerableBlocks]
  | cons e rest ih =>
    obtain ⟨k0, q0⟩ := e
    by_cases hk : k0 = k
    · simp only [setQueue, getQueue, hk, if_true, countVulnerable, List.map_cons, List.sum_cons]
      omega
    · simp only [setQueue, getQueue, hk, if_false, countVulnerable, List.map_cons,
        List.sum_cons] at ih ⊢
      omega

lemma countVulnerableBlocks_settle (acked : Nat) (q : List OutstandingBlock) :
    countVulnerableBlocks (q.map (settleBlock acked))
      + q.countP (fun b => b.vulnerable && b.references.all (fun i => decide (i < acked)))
      = countVulnerableBlocks q := by
  induction q with
  | nil => simp [countVulnerableBlocks]
  | cons b rest ih =>
    unfold countVulnerableBlocks at ih ⊢
    simp only [List.map_cons, List.countP_cons]
    cases hv : b.vulnerable <;>
      cases ha : b.references.all (fun i => decide (i < acked)) <;>
      simp only [settleBlock, hv, ha, Bool.and_self, Bool.and_false, Bool.and_true,
        Bool.false_and, Bool.true_and, Bool.false_eq_true, if_false, if_true] <;>
      omega

/-- The blocks settled by an Insert Count Increment are exactly the ones that
leave the global count. -/
lemma countVulnerable_settleAll (acked : Nat) (m : List (Nat × List OutstandingBlock)) :
    countVulnerable (settleAll acked m) + countSettled acked m = countVulnerable m := by
  induction m with
  | nil => simp [countVulnerable, settleAll, countSettled]
  | cons e rest ih =>
    have h := countVulnerableBlocks_settle acked e.2
    simp only [countVulnerable, settleAll, countSettled, List.map_cons, List.sum_cons,
      List.map_map] at ih h ⊢
    omega

lemma trackReference_inv (enc : QPACKEncoder InsertCounts) (cur : OutstandingBlock)
    (index : Nat) (st1 : QPACKEncoder InsertCounts × OutstandingBlock)
    (h : EncodingInv (enc, cur)) (hs : trackReference enc cur index = some st1) :
    EncodingInv st1 := by
  unfold trackReference at hs
  unfold EncodingInv at h ⊢
  by_cases hack : index < enc.table_.ackedInsertCount
  · simp only [hack, if_true, Option.some.injEq] at hs
    subst hs
    exact h
  · simp only [hack, if_false] at hs
    by_cases hallow : enc.allowVulnerable = true
    · simp only [hallow, if_true] at hs
      cases hv : cur.vulnerable
      · simp only [hv, Bool.false_eq_true, if_false, Option.some.injEq] at hs
        subst hs
        have hlt : enc.numVulnerable_ < enc.maxVulnerable_ := by
          simpa [allowVulnerable] using hallow
        simp only [hv, Bool.false_eq_true, if_false, if_true] at h ⊢
        omega
      · simp only [hv, if_true, Option.some.injEq] at hs
        subst hs
        simpa [hv] using h
    · simp [hallow] at hs

lemma encodeHeader_inv (st : QPACKEncoder InsertCounts × OutstandingBlock) (p : HeaderPath)
    (h : EncodingInv st) : EncodingInv (encodeHeader st p) := by
  cases p with
  | literal => exact h
  | reference index =>
    simp only [encodeHeader]
    cases hs : trackReference st.1 st.2 index with
    | none => exact h
    | some st1 => exact trackReference_inv st.1 st.2 index st1 h hs
  | newEntry =>
    simp only [encodeHeader]
    cases hs : trackReference
        { st.1 with table_ := { st.1.table_ with insertCount := st.1.table_.insertCount + 1 } }
        st.2 st.1.table_.insertCount with
    | none => exact h
    | some st1 =>
      have hm : EncodingInv
          ({ st.1 with
              table_ := { st.1.table_ with insertCount := st.1.table_.insertCount + 1 } },
            st.2) := h
      exact trackReference_inv _ _ _ st1 hm hs

lemma foldl_encodeHeader_inv (paths : List HeaderPath)
    (st : QPACKEncoder InsertCounts × OutstandingBlock) (h : EncodingInv st) :
    EncodingInv (paths.foldl encodeHeader st) := by
  induction paths generalizing st with
  | nil => exact h
  | cons p rest ih => exact ih _ (encodeHeader_inv st p h)

lemma encode_inv (enc : QPACKEncoder InsertCounts) (paths : List HeaderPath) (streamId : Nat)
    (h : TrackerInv enc) : TrackerInv (enc.encode paths streamId) := by
  have h0 : EncodingInv (enc, { references := [], vulnerable := false }) := by
    simpa [EncodingInv, TrackerInv] using h
  have h1 := foldl_encodeHeader_inv paths _ h0
  have hq := countVulnerable_setQueue
    (paths.foldl encodeHeader (enc, { references := [], vulnerable := false })).1.outstanding_
    streamId
    (getQueue (paths.foldl encodeHeader
        (enc, { references := [], vulnerable := false })).1.outstanding_ streamId
      ++ [(paths.foldl encodeHeader (enc, { references := [], vulnerable := false })).2])
  rw [countVulnerableBlocks_append, countVulnerableBlocks_single] at hq
  unfold EncodingInv at h1
  unfold TrackerInv QPACKEncoder.encode
  simp only
  omega

lemma onInsertCountIncrement_inv (enc enc1 : QPACKEncoder InsertCounts) (inserts : Nat)
    (h : TrackerInv enc) (hs : enc.onInsertCountIncrement inserts = some enc1) :
    TrackerInv enc1 := by
  unfold QPACKEncoder.onInsertCountIncrement at hs
  split at hs
  · simp at hs
  · simp only [Option.some.injEq] at hs
    subst hs
    have hc := countVulnerable_settleAll (enc.table_.ackedInsertCount + inserts) enc.outstanding_
    unfold TrackerInv at h ⊢
    simp only
    omega

lemma onHeaderAck_inv (enc enc1 : QPACKEncoder InsertCounts) (streamId : Nat) (all : Bool)
    (h : TrackerInv enc) (hs : enc.onHeaderAck streamId all = some enc1) :
    TrackerInv enc1 := by
  unfold QPACKEncoder.onHeaderAck at hs
  cases hq : getQueue enc.outstanding_ streamId with
  | nil => simp [hq] at hs
  | cons b rest =>
    simp only [hq] at hs
    have hcons : countVulnerableBlocks (b :: rest)
        = countVulnerableBlocks [b] + countVulnerableBlocks rest :=
      countVulnerableBlocks_append [b] rest
    unfold TrackerInv at h ⊢
    cases all
    · simp only [Bool.false_eq_true, if_false, Option.some.injEq] at hs
      subst hs
      have hc := countVulnerable_setQueue enc.outstanding_ streamId rest
      rw [hq] at hc
      simp only
      omega
    · simp only [if_true, Option.some.injEq] at hs
      subst hs
      have hc := countVulnerable_setQueue enc.outstanding_ streamId []
      rw [hq] at hc
      have hnil : countVulnerableBlocks [] = 0 := rfl
      simp only
      omega

lemma applyOp_inv (enc : QPACKEncoder InsertCounts) (op : Op) (h : TrackerInv enc)
    (hmax : ∀ v, op = Op.setMaxVulnerable v → enc.numVulnerable_ ≤ v) :
    TrackerInv (applyOp enc op) := by
  cases op with
  | encode paths streamId => exact encode_inv enc paths streamId h
  | onInsertCountIncrement inserts =>
    simp only [applyOp]
    cases hs : enc.onInsertCountIncrement inserts with
    | none => exact h
    | some enc1 => exact onInsertCountIncrement_inv enc enc1 inserts h hs
  | onHeaderAck streamId all =>
    simp only [applyOp]
    cases hs : enc.onHeaderAck streamId all with
    | none => exact h
    | some enc1 => exact onHeaderAck_inv enc enc1 streamId all h hs
  | setMaxVulnerable v =>
    exact ⟨h.1, hmax v rfl⟩

lemma runOps_inv (ops : List Op) (enc : QPACKEncoder InsertCounts) (h : TrackerInv enc)
    (hops : maxNotBelowCounter ops enc = true) : TrackerInv (runOps ops enc) := by
  induction ops generalizing enc with
  | nil => exact h
  | cons op rest ih =>
    simp only [runOps]
    cases op with
    | setMaxVulnerable v =>
      simp only [maxNotBelowCounter, Bool.and_eq_true, decide_eq_true_eq] at hops
      refine ih _ (applyOp_inv enc _ h ?_) hops.2
      intro w hw
      cases hw
      exact hops.1
    | encode paths streamId =>
      simp only [maxNotBelowCounter] at hops
      exact ih _ (applyOp_inv enc _ h (by intro w hw; cases hw)) hops
    | onInsertCountIncrement inserts =>
      simp only [maxNotBelowCounter] at hops
      exact ih _ (applyOp_inv enc _ h (by intro w hw; cases hw)) hops
    | onHeaderAck streamId all =>
      simp only [maxNotBelowCounter] at hops
      exact ih _ (applyOp_inv enc _ h (by intro w hw; cases hw)) hops

end Lemmas

open QPACKEncoder

/-! ## Table-size negotiation -/

/-- C1: when the recorded peer maximum is non-zero and `tableSize` differs from
it, `setHeaderTableSize(tableSize, true)` returns false and leaves the whole
encoder as it was: `getMaxHeaderTableSize()` is unchanged and the table is the
one before the call for every table-store setter, so the setter is not reached. -/
theorem setHeaderTableSize_conflict_rejected {T : Type} (baseSet : T → Nat → T)
    (enc : QPACKEncoder T) (tableSize : Nat)
    (hset : enc.maxTableSize_ ≠ 0) (hne : tableSize ≠ enc.maxTableSize_) :
    (setHeaderTableSize baseSet enc tableSize true).1 = false
    ∧ (setHeaderTableSize baseSet enc tableSize true).2 = enc
    ∧ getMaxHeaderTableSize (setHeaderTableSize baseSet enc tableSize true).2
        = getMaxHeaderTableSize enc
    ∧ (setHeaderTableSize baseSet enc tableSize true).2.table_ = enc.table_ := by
  have hne1 : enc.maxTableSize_ ≠ tableSize := fun h => hne h.symm
  simp [setHeaderTableSize, hset, hne1]

/-- Instance of C1: after 4096 has been recorded, announcing 8192 fails, the
maximum stays 4096 and the recording table store sees no further call. -/
theorem setHeaderTableSize_conflict_rejected_witness :
    rec4096.maxTableSize_ ≠ 0 ∧ 8192 ≠ rec4096.maxTableSize_
    ∧ (setHeaderTableSize recordSize rec4096 8192 true).1 = false
    ∧ getMaxHeaderTableSize (setHeaderTableSize recordSize rec4096 8192 true).2 = 4096
    ∧ (setHeaderTableSize recordSize rec4096 8192 true).2.table_ = [4096] := by
  have h := setHeaderTableSize_conflict_rejected recordSize rec4096 8192
    (by decide) (by decide)
  refine ⟨by decide, by decide, h.1, ?_, ?_⟩
  · rw [h.2.2.1]; decide
  · rw [h.2.2.2]; decide

/-- C2: a recorded maximum of 0 counts as unset: from any encoder whose recorded
maximum is 0, `setHeaderTableSize(tableSize, true)` returns true and afterwards
`getMaxHeaderTableSize()` is `tableSize`; this includes the encoder left by a
prior `setHeaderTableSize(0, true)`, whose recorded maximum is again 0. -/
theorem setHeaderTableSize_zero_is_unset {T : Type} (baseSet : T → Nat → T)
    (enc : QPACKEncoder T) (tableSize : Nat) (hzero : enc.maxTableSize_ = 0) :
    ((setHeaderTableSize baseSet enc tableSize true).1 = true
      ∧ getMaxHeaderTableSize (setHeaderTableSize baseSet enc tableSize true).2 = tableSize)
    ∧ ((setHeaderTableSize baseSet enc 0 true).1 = true
      ∧ getMaxHeaderTableSize (setHeaderTableSize baseSet enc 0 true).2 = 0
      ∧ (setHeaderTableSize baseSet
          (setHeaderTableSize baseSet enc 0 true).2 tableSize true).1 = true
      ∧ getMaxHeaderTableSize (setHeaderTableSize baseSet
          (setHeaderTableSize baseSet enc 0 true).2 tableSize true).2 = tableSize) := by
  simp [setHeaderTableSize, hzero, getMaxHeaderTableSize, clampAndStore_maxTableSize]

/-- Instance of C2: on a fresh encoder, set 0, then set 4096: the second call
returns true and the maximum is 4096. -/
theorem setHeaderTableSize_zero_is_unset_witness :
    freshRec.maxTableSize_ = 0
    ∧ (setHeaderTableSize recordSize
        (setHeaderTableSize recordSize freshRec 0 true).2 4096 true).1 = true
    ∧ getMaxHeaderTableSize (setHeaderTableSize recordSize
        (setHeaderTableSize recordSize freshRec 0 true).2 4096 true).2 = 4096 :=
  ⟨rfl,
   (setHeaderTableSize_zero_is_unset recordSize freshRec 4096 rfl).2.2.2.1,
   (setHeaderTableSize_zero_is_unset recordSize freshRec 4096 rfl).2.2.2.2⟩

/-- C3: whenever `setHeaderTableSize(tableSize, updateMax)` returns true, the
table store is given exactly `min(tableSize, kMaxHeaderTableSize)`, with
`kMaxHeaderTableSize = 65536`: a value above the ceiling is replaced by the
ceiling, a value at or below it is passed unchanged.  Exceeding the ceiling never
makes a call fail: with `updateMax = false`, or with no maximum recorded yet, a
size above the ceiling is accepted. -/
theorem setHeaderTableSize_clamps {T : Type} (baseSet : T → Nat → T)
    (enc : QPACKEncoder T) (tableSize : Nat) (updateMax : Bool)
    (hok : (setHeaderTableSize baseSet enc tableSize updateMax).1 = true) :
    (setHeaderTableSize baseSet enc tableSize updateMax).2.table_
        = baseSet enc.table_ (min tableSize kMaxHeaderTableSize)
    ∧ kMaxHeaderTableSize = 65536
    ∧ (kMaxHeaderTableSize < tableSize →
        (setHeaderTableSize baseSet enc tableSize updateMax).2.table_
          = baseSet enc.table_ kMaxHeaderTableSize)
    ∧ (tableSize ≤ kMaxHeaderTableSize →
        (setHeaderTableSize baseSet enc tableSize updateMax).2.table_
          = baseSet enc.table_ tableSize)
    ∧ (∀ big : Nat, kMaxHeaderTableSize < big →
        (setHeaderTableSize baseSet enc big false).1 = true
        ∧ (enc.maxTableSize_ = 0 → (setHeaderTableSize baseSet enc big true).1 = true)) := by
  have htab : (setHeaderTableSize baseSet enc tableSize updateMax).2.table_
      = baseSet enc.table_ (min tableSize kMaxHeaderTableSize) := by
    unfold setHeaderTableSize at hok ⊢
    cases updateMax
    · simp [clampAndStore_table]
    · by_cases hc : enc.maxTableSize_ ≠ 0 ∧ enc.maxTableSize_ ≠ tableSize
      · simp [hc] at hok
      · simp only [if_true, if_neg hc, clampAndStore_table]
  refine ⟨htab, kMaxHeaderTableSize_eq, ?_, ?_, ?_⟩
  · intro hbig
    rw [htab, Nat.min_eq_right (Nat.le_of_lt hbig)]
  · intro hsmall
    rw [htab, Nat.min_eq_left hsmall]
  · intro big _
    constructor
    · simp [setHeaderTableSize]
    · intro hz
      simp [setHeaderTableSize, hz]

/-- Instance of C3: on a fresh encoder the request 100000 succeeds and the
recording table store is given 65536. -/
theorem setHeaderTableSize_clamps_witness :
    (setHeaderTableSize recordSize freshRec 100000 true).1 = true
    ∧ (setHeaderTableSize recordSize freshRec 100000 true).2.table_ = [65536] := by
  have h := setHeaderTableSize_clamps recordSize freshRec 100000 true (by decide)
  refine ⟨by decide, ?_⟩
  rw [h.2.2.1 (by decide)]
  decide

/-- Refutation of C4 as stated: on a fresh encoder the single call
`setHeaderTableSize(100000, true)` succeeds and afterwards
`getMaxHeaderTableSize()` is 100000, which exceeds `kMaxHeaderTableSize`. -/
theorem getMaxHeaderTableSize_exceeds_ceiling :
    (setHeaderTableSize recordSize freshRec 100000 true).1 = true
    ∧ getMaxHeaderTableSize (runCalls recordSize [(100000, true)] freshRec) = 100000
    ∧ ¬ (getMaxHeaderTableSize (runCalls recordSize [(100000, true)] freshRec)
          ≤ kMaxHeaderTableSize) := by
  decide

/-- C4 (amended): starting from a fresh encoder, after every sequence of
`setHeaderTableSize` calls every size given to the table store is at most
`kMaxHeaderTableSize`; the recorded maximum `getMaxHeaderTableSize()` is not
clamped: it is 0 or the requested size of a call of the sequence made with
`updateMax = true`, hence at most `kMaxHeaderTableSize` when every such call
requested at most `kMaxHeaderTableSize`. -/
theorem tableSize_capped_after_calls (kDefaultBlocking : Nat) (calls : List (Nat × Bool)) :
    (∀ size ∈ (runCalls recordSize calls (fresh [] kDefaultBlocking)).table_,
        size ≤ kMaxHeaderTableSize)
    ∧ (getMaxHeaderTableSize (runCalls recordSize calls (fresh [] kDefaultBlocking)) = 0
        ∨ ∃ c ∈ calls, c.2 = true ∧
            c.1 = getMaxHeaderTableSize (runCalls recordSize calls (fresh [] kDefaultBlocking)))
    ∧ ((∀ c ∈ calls, c.2 = true → c.1 ≤ kMaxHeaderTableSize) →
        getMaxHeaderTableSize (runCalls recordSize calls (fresh [] kDefaultBlocking))
          ≤ kMaxHeaderTableSize) := by
  have hcases := runCalls_max_cases recordSize calls (fresh [] kDefaultBlocking)
  refine ⟨runCalls_log_capped calls _ (by simp [fresh]), hcases, ?_⟩
  intro hall
  rcases hcases with h | ⟨c, hc, hu, hv⟩
  · have h0 : (fresh ([] : List Nat) kDefaultBlocking).maxTableSize_ = 0 := rfl
    show (runCalls recordSize calls (fresh [] kDefaultBlocking)).maxTableSize_
      ≤ kMaxHeaderTableSize
    rw [h, h0]
    exact Nat.zero_le _
  · simp only [getMaxHeaderTableSize]
    rw [← hv]
    exact hall c hc hu

/-- Instance of C4 (amended): the calls (100000, false), (4096, true),
(70000, false) leave the maximum 4096 and give the table store 65536, 4096,
65536. -/
theorem tableSize_capped_after_calls_witness :
    (∀ c ∈ [(100000, false), (4096, true), (70000, false)],
        c.2 = true → c.1 ≤ kMaxHeaderTableSize)
    ∧ getMaxHeaderTableSize
        (runCalls recordSize [(100000, false), (4096, true), (70000, false)] (fresh [] 100))
          ≤ kMaxHeaderTableSize
    ∧ (runCalls recordSize [(100000, false), (4096, true), (70000, false)]
        (fresh [] 100)).table_ = [65536, 4096, 65536] :=
  ⟨by decide,
   (tableSize_capped_after_calls 100 [(100000, false), (4096, true), (70000, false)]).2.2
     (by decide),
   by decide⟩

/-- C5: once the negotiated maximum is non-zero it never changes: for every
encoder and every sequence of `setHeaderTableSize` calls (any size, any
`updateMax`, accepted or rejected), if `getMaxHeaderTableSize()` is non-zero
after the calls `pre`, it has the same value after any further calls `post`. -/
theorem maxTableSize_immutable_once_nonzero {T : Type} (baseSet : T → Nat → T)
    (enc : QPACKEncoder T) (pre post : List (Nat × Bool))
    (hset : getMaxHeaderTableSize (runCalls baseSet pre enc) ≠ 0) :
    getMaxHeaderTableSize (runCalls baseSet (pre ++ post) enc)
      = getMaxHeaderTableSize (runCalls baseSet pre enc) := by
  rw [runCalls_append]
  exact runCalls_keeps_nonzero baseSet post _ hset

/-- Instance of C5: after 4096 is recorded, the calls (8192, true), (0, true),
(4096, true), (16, false) leave the maximum at 4096. -/
theorem maxTableSize_immutable_once_nonzero_witness :
    getMaxHeaderTableSize (runCalls recordSize [(0, true), (4096, true)] freshRec) ≠ 0
    ∧ getMaxHeaderTableSize (runCalls recordSize
        ([(0, true), (4096, true)] ++ [(8192, true), (0, true), (4096, true), (16, false)])
        freshRec) = 4096 := by
  have h := maxTableSize_immutable_once_nonzero recordSize freshRec
    [(0, true), (4096, true)] [(8192, true), (0, true), (4096, true), (16, false)] (by decide)
  refine ⟨by decide, ?_⟩
  rw [h]
  decide

/-- C9: `setHeaderTableSize(tableSize, false)` never fails and never touches the
recorded peer maximum: it returns true, `getMaxHeaderTableSize()` is unchanged
and the table store is given `min(tableSize, 65536)`, whatever the recorded
maximum is.  Consequently `setHeaderTableSize` returns false exactly when
`updateMax` is true, the recorded maximum is non-zero and differs from
`tableSize`. -/
theorem setHeaderTableSize_without_updateMax {T : Type} (baseSet : T → Nat → T)
    (enc : QPACKEncoder T) (tableSize : Nat) :
    (setHeaderTableSize baseSet enc tableSize false).1 = true
    ∧ getMaxHeaderTableSize (setHeaderTableSize baseSet enc tableSize false).2
        = getMaxHeaderTableSize enc
    ∧ (setHeaderTableSize baseSet enc tableSize false).2.table_
        = baseSet enc.table_ (min tableSize 65536)
    ∧ (∀ updateMax : Bool, (setHeaderTableSize baseSet enc tableSize updateMax).1 = false
        ↔ (updateMax = true ∧ enc.maxTableSize_ ≠ 0 ∧ enc.maxTableSize_ ≠ tableSize)) := by
  refine ⟨by simp [setHeaderTableSize], by simp [setHeaderTableSize, getMaxHeaderTableSize,
    clampAndStore_maxTableSize], ?_, ?_⟩
  · rw [← kMaxHeaderTableSize_eq]
    simp [setHeaderTableSize, clampAndStore_table]
  · intro updateMax
    unfold setHeaderTableSize
    cases updateMax
    · simp
    · by_cases hc : enc.maxTableSize_ ≠ 0 ∧ enc.maxTableSize_ ≠ tableSize
      · simp [hc]
      · simp only [if_true, if_neg hc]
        simp
        intro h0
        simpa using fun h => hc ⟨h0, h⟩

/-- C10: announcing the same maximum again is accepted and idempotent: if
`setHeaderTableSize(tableSize, true)` returns true, an immediately repeated
call returns true, leaves `getMaxHeaderTableSize()` at `tableSize`, and gives
the table store the same clamped size `min(tableSize, 65536)` as the first. -/
theorem setHeaderTableSize_repeat_accepted {T : Type} (baseSet : T → Nat → T)
    (enc : QPACKEncoder T) (tableSize : Nat)
    (hok : (setHeaderTableSize baseSet enc tableSize true).1 = true) :
    (setHeaderTableSize baseSet
        (setHeaderTableSize baseSet enc tableSize true).2 tableSize true).1 = true
    ∧ getMaxHeaderTableSize (setHeaderTableSize baseSet enc tableSize true).2 = tableSize
    ∧ getMaxHeaderTableSize (setHeaderTableSize baseSet
        (setHeaderTableSize baseSet enc tableSize true).2 tableSize true).2 = tableSize
    ∧ (setHeaderTableSize baseSet enc tableSize true).2.table_
        = baseSet enc.table_ (min tableSize 65536)
    ∧ (setHeaderTableSize baseSet
        (setHeaderTableSize baseSet enc tableSize true).2 tableSize true).2.table_
        = baseSet (setHeaderTableSize baseSet enc tableSize true).2.table_
            (min tableSize 65536) := by
  have hc : ¬ (enc.maxTableSize_ ≠ 0 ∧ enc.maxTableSize_ ≠ tableSize) := by
    intro hc
    simp [setHeaderTableSize, hc] at hok
  have h1 : (setHeaderTableSize baseSet enc tableSize true).2
      = clampAndStore baseSet { enc with maxTableSize_ := tableSize } tableSize := by
    simp only [setHeaderTableSize, if_true, if_neg hc]
  have h2 : ∀ e : QPACKEncoder T, e.maxTableSize_ = tableSize →
      setHeaderTableSize baseSet e tableSize true
        = (true, clampAndStore baseSet { e with maxTableSize_ := tableSize } tableSize) := by
    intro e he
    simp [setHeaderTableSize, he]
  have hm : (setHeaderTableSize baseSet enc tableSize true).2.maxTableSize_ = tableSize := by
    rw [h1, clampAndStore_maxTableSize]
  rw [h2 _ hm, ← kMaxHeaderTableSize_eq]
  refine ⟨rfl, hm, ?_, ?_, ?_⟩
  · simp only [getMaxHeaderTableSize, clampAndStore_maxTableSize]
  · rw [h1, clampAndStore_table]
  · simp only [clampAndStore_table]

/-- Instance of C10: announcing 100000 twice on a fresh encoder succeeds both
times, the maximum is 100000 and the table store is given 65536 twice. -/
theorem setHeaderTableSize_repeat_accepted_witness :
    (setHeaderTableSize recordSize freshRec 100000 true).1 = true
    ∧ (setHeaderTableSize recordSize
        (setHeaderTableSize recordSize freshRec 100000 true).2 100000 true).1 = true
    ∧ (setHeaderTableSize recordSize
        (setHeaderTableSize recordSize freshRec 100000 true).2 100000 true).2.table_
        = [65536, 65536] :=
  ⟨by decide,
   (setHeaderTableSize_repeat_accepted recordSize freshRec 100000 (by decide)).1,
   by decide⟩

/-! ## Vulnerability gate and flow-control gate -/

/-- C7: `allowVulnerable()` is true exactly when the vulnerability counter is
strictly below the configured maximum; it is false when the counter equals the
maximum, and false for every counter value once `setMaxVulnerable(0)` has been
called. -/
theorem allowVulnerable_iff_below_max {T : Type} (enc : QPACKEncoder T) :
    (allowVulnerable enc = true ↔ enc.numVulnerable_ < enc.maxVulnerable_)
    ∧ (enc.numVulnerable_ = enc.maxVulnerable_ → allowVulnerable enc = false)
    ∧ allowVulnerable (setMaxVulnerable enc 0) = false := by
  refine ⟨by simp [allowVulnerable], ?_, by simp [allowVulnerable, setMaxVulnerable]⟩
  intro h
  simp [allowVulnerable, h]

/-- Instance of C7: with counter 0, `allowVulnerable()` is true under the maximum
100 and false after `setMaxVulnerable(0)`, where counter and maximum are equal. -/
theorem allowVulnerable_iff_below_max_witness :
    allowVulnerable freshRec = true
    ∧ (setMaxVulnerable freshRec 0).numVulnerable_ = (setMaxVulnerable freshRec 0).maxVulnerable_
    ∧ allowVulnerable (setMaxVulnerable freshRec 0) = false :=
  ⟨(allowVulnerable_iff_below_max freshRec).1.2 (by decide), rfl,
   (allowVulnerable_iff_below_max (setMaxVulnerable freshRec 0)).2.1 rfl⟩

/-- C8: `lastEntryAvailable()` is true exactly when the remaining encoder-stream
byte budget is non-negative: true for the budget 0, false for every negative
budget. -/
theorem lastEntryAvailable_iff_nonneg {T : Type} (enc : QPACKEncoder T) :
    (lastEntryAvailable enc = true ↔ 0 ≤ enc.maxEncoderStreamBytes_)
    ∧ (enc.maxEncoderStreamBytes_ = 0 → lastEntryAvailable enc = true)
    ∧ (enc.maxEncoderStreamBytes_ < 0 → lastEntryAvailable enc = false) := by
  refine ⟨by simp [lastEntryAvailable], ?_, ?_⟩
  · intro h
    simp [lastEntryAvailable, h]
  · intro h
    simp [lastEntryAvailable, h]

/-- Instance of C8: the fresh encoder has budget 0 and `lastEntryAvailable()` is
true; with budget -1 it is false. -/
theorem lastEntryAvailable_iff_nonneg_witness :
    lastEntryAvailable freshRec = true
    ∧ lastEntryAvailable { freshRec with maxEncoderStreamBytes_ := -1 } = false :=
  ⟨(lastEntryAvailable_iff_nonneg freshRec).2.1 rfl,
   (lastEntryAvailable_iff_nonneg { freshRec with maxEncoderStreamBytes_ := -1 }).2.2
     (by decide)⟩

/-- Refutation of C6 as stated: on a fresh encoder (default maximum 100) one
header block with a reference to a newly inserted entry is encoded on stream 1,
which makes the block vulnerable and the counter 1; `setMaxVulnerable(0)` then
stores 0 as the maximum, so the counter 1 exceeds the maximum 0. -/
theorem numVulnerable_exceeds_max_after_setMaxVulnerable :
    (runOps [Op.encode [HeaderPath.newEntry] 1] (freshTracker 100)).numVulnerable_ = 1
    ∧ (runOps [Op.encode [HeaderPath.newEntry] 1, Op.setMaxVulnerable 0]
        (freshTracker 100)).numVulnerable_ = 1
    ∧ (runOps [Op.encode [HeaderPath.newEntry] 1, Op.setMaxVulnerable 0]
        (freshTracker 100)).maxVulnerable_ = 0
    ∧ ¬ ((runOps [Op.encode [HeaderPath.newEntry] 1, Op.setMaxVulnerable 0]
          (freshTracker 100)).numVulnerable_
        ≤ (runOps [Op.encode [HeaderPath.newEntry] 1, Op.setMaxVulnerable 0]
          (freshTracker 100)).maxVulnerable_) := by
  decide

/-- C6 (amended): in every state reached from a fresh encoder by a sequence of
`encode` calls, decoder feedback (`onInsertCountIncrement`, `onHeaderAck`) and
`setMaxVulnerable(v)` calls each issued while the counter is at most `v`, the
vulnerability counter is at most the configured maximum, and it equals the
number of vulnerable outstanding blocks.  `setMaxVulnerable` itself stores any
value and leaves the counter untouched. -/
theorem numVulnerable_le_max_of_guarded_ops (kDefaultBlocking : Nat) (ops : List Op)
    (hops : maxNotBelowCounter ops (freshTracker kDefaultBlocking) = true) :
    (runOps ops (freshTracker kDefaultBlocking)).numVulnerable_
        ≤ (runOps ops (freshTracker kDefaultBlocking)).maxVulnerable_
    ∧ (runOps ops (freshTracker kDefaultBlocking)).numVulnerable_
        = countVulnerable (runOps ops (freshTracker kDefaultBlocking)).outstanding_
    ∧ (∀ (enc : QPACKEncoder InsertCounts) (v : Nat),
        (setMaxVulnerable enc v).maxVulnerable_ = v
        ∧ (setMaxVulnerable enc v).numVulnerable_ = enc.numVulnerable_) := by
  have h0 : TrackerInv (freshTracker kDefaultBlocking) :=
    ⟨rfl, Nat.zero_le _⟩
  have h := runOps_inv ops _ h0 hops
  exact ⟨h.2, h.1, fun _ _ => ⟨rfl, rfl⟩⟩

/-- Instance of C6 (amended): with the cap lowered to 1 before any block is
outstanding, two blocks that each want a reference to a new entry are encoded;
the second falls back to a literal and the counter stays at 1, and after the
acknowledgment of the first block the counter is 0. -/
theorem numVulnerable_le_max_of_guarded_ops_witness :
    maxNotBelowCounter
        [Op.setMaxVulnerable 1, Op.encode [HeaderPath.newEntry] 1,
         Op.encode [HeaderPath.newEntry] 2, Op.onHeaderAck 1 false]
        (freshTracker 100) = true
    ∧ (runOps [Op.setMaxVulnerable 1, Op.encode [HeaderPath.newEntry] 1,
         Op.encode [HeaderPath.newEntry] 2] (freshTracker 100)).numVulnerable_ = 1
    ∧ (runOps
        [Op.setMaxVulnerable 1, Op.encode [HeaderPath.newEntry] 1,
         Op.encode [HeaderPath.newEntry] 2, Op.onHeaderAck 1 false]
        (freshTracker 100)).numVulnerable_
      ≤ (runOps
        [Op.setMaxVulnerable 1, Op.encode [HeaderPath.newEntry] 1,
         Op.encode [HeaderPath.newEntry] 2, Op.onHeaderAck 1 false]
        (freshTracker 100)).maxVulnerable_ :=
  ⟨by decide, by decide,
   (numVulnerable_le_max_of_guarded_ops 100
      [Op.setMaxVulnerable 1, Op.encode [HeaderPath.newEntry] 1,
       Op.encode [HeaderPath.newEntry] 2, Op.onHeaderAck 1 false] (by decide)).1⟩

end proxygen
